import Mathlib

/-!
Verification of the horizon ingestion engine
(services/horizon/internal/ingest: ingestion.go, main.go).

The development shallowly embeds the batched transactional ingestion
engine: the row data model, the seven typed emitters, the bounded-parameter
batch-insert algorithm of Flush, the address-to-identifier resolution
protocol of UpdateAccountIDs, the deterministic trade canonicalization
rule, and the sequential range deletes of Clear.

Go machine integers (int32/int64) are modelled as Int; none of the verified
properties depend on overflow behaviour.  Go maps are modelled as
association lists iterated in insertion order (Go's map iteration order is
unspecified; the claims verified here are insensitive to that order).
Store round trips (queries, inserts, begin/commit) are recorded in an
explicit operation trace and the stores themselves are modelled as pure
state threaded through the functions.
-/

namespace Ingest

/-! ## Definitions: the embedded data model and operations -/

/-- CurrentVersion from main.go: the ingestion-algorithm version constant
used to tag every ledger row. -/
def CurrentVersion : Int := 11

/-- TableName from main.go: the seven destination tables of the row model. -/
inductive TableName
  | effects
  | ledgers
  | operationParticipants
  | operations
  | trades
  | transactionParticipants
  | transactions
deriving DecidableEq, Repr, Fintype

/-- The string value of each TableName constant from main.go. -/
def TableName.toString : TableName → String
  | .effects => "history_effects"
  | .ledgers => "history_ledgers"
  | .operationParticipants => "history_operation_participants"
  | .operations => "history_operations"
  | .trades => "history_trades"
  | .transactionParticipants => "history_transaction_participants"
  | .transactions => "history_transactions"

/-- The seven table names, in the order createInsertBuilders initializes
their builders (ingestion.go). -/
def allTableNames : List TableName :=
  [.effects, .ledgers, .operationParticipants, .operations, .trades,
   .transactionParticipants, .transactions]

/-- One bound parameter of an insert statement.  The constructors cover the
Go value kinds that row parameter tuples contain (integers, strings,
nullable strings, booleans, timestamps, string arrays). -/
inductive Param
  | int (i : Int)
  | str (s : String)
  | optStr (s : Option String)
  | bool (b : Bool)
  | time (t : Int)
  | strList (l : List String)
deriving DecidableEq, Repr

/-- effectRow from main.go. -/
structure EffectRow where
  accountID : Int
  operationID : Int
  order : Int
  type : Int
  details : String
  address : String
deriving DecidableEq, Repr

/-- operationRow from main.go. -/
structure OperationRow where
  id : Int
  txID : Int
  order : Int
  source : String
  type : Int
  details : String
deriving DecidableEq, Repr

/-- operationParticipantRow from main.go. -/
structure OperationParticipantRow where
  operationID : Int
  accountID : Int
  address : String
deriving DecidableEq, Repr

/-- ledgerRow from main.go.  time.Time fields are modelled as Int
(unix seconds). -/
structure LedgerRow where
  importerVersion : Int
  id : Int
  sequence : Int
  ledgerHash : String
  previousLedgerHash : Option String
  totalCoins : Int
  feePool : Int
  baseFee : Int
  baseReserve : Int
  maxTxSetSize : Int
  closedAt : Int
  createdAt : Int
  updatedAt : Int
  transactionCount : Int
  operationCount : Int
  protocolVersion : Int
  ledgerHeaderXDR : Option String
deriving DecidableEq, Repr

/-- tradeRow from main.go. -/
structure TradeRow where
  operationID : Int
  order : Int
  ledgerCloseAt : Int
  offerID : Int
  baseAccountID : Int
  baseAssetID : Int
  baseAmount : Int
  counterAccountID : Int
  counterAssetID : Int
  counterAmount : Int
  baseIsSeller : Bool
  baseAddress : String
  counterAddress : String
deriving DecidableEq, Repr

/-- transactionRow from main.go. -/
structure TransactionRow where
  id : Int
  transactionHash : String
  ledgerSequence : Int
  applicationOrder : Int
  account : String
  accountSequence : Int
  feePaid : Int
  operationCount : Int
  txEnvelope : String
  txResult : String
  txMeta : String
  txFeeMeta : String
  signaturesString : List String
  timeBounds : Option String
  memoType : String
  memo : Option String
  createdAt : Int
  updatedAt : Int
deriving DecidableEq, Repr

/-- transactionParticipantRow from main.go. -/
structure TransactionParticipantRow where
  transactionID : Int
  accountID : Int
  address : String
deriving DecidableEq, Repr

/-- The closed set of row variants implementing the row interface of
main.go. -/
inductive Row
  | effect (r : EffectRow)
  | operation (r : OperationRow)
  | operationParticipant (r : OperationParticipantRow)
  | ledger (r : LedgerRow)
  | trade (r : TradeRow)
  | transaction (r : TransactionRow)
  | transactionParticipant (r : TransactionParticipantRow)
deriving DecidableEq, Repr

/-- GetTableName of each row variant: the destination table.  Modelled from
the spec: the row method bodies are declared in main.go's row interface but
implemented outside the two source files; each variant targets the table it
is named after (spec section 3). -/
def Row.getTableName : Row → TableName
  | .effect _ => .effects
  | .operation _ => .operations
  | .operationParticipant _ => .operationParticipants
  | .ledger _ => .ledgers
  | .trade _ => .trades
  | .transaction _ => .transactions
  | .transactionParticipant _ => .transactionParticipants

/-- GetParams of each row variant: the ordered parameter tuple matching the
destination table's column order.  Modelled from the spec: the method
bodies are outside the two source files; the tuples follow the column
orders of spec section 6, which match the Columns lists of the insert
builders in ingestion.go. -/
def Row.getParams : Row → List Param
  | .effect r =>
      [.int r.accountID, .int r.operationID, .int r.order, .int r.type,
       .str r.details]
  | .operation r =>
      [.int r.id, .int r.txID, .int r.order, .str r.source, .int r.type,
       .str r.details]
  | .operationParticipant r =>
      [.int r.operationID, .int r.accountID]
  | .ledger r =>
      [.int r.importerVersion, .int r.id, .int r.sequence, .str r.ledgerHash,
       .optStr r.previousLedgerHash, .int r.totalCoins, .int r.feePool,
       .int r.baseFee, .int r.baseReserve, .int r.maxTxSetSize,
       .time r.closedAt, .time r.createdAt, .time r.updatedAt,
       .int r.transactionCount, .int r.operationCount, .int r.protocolVersion,
       .optStr r.ledgerHeaderXDR]
  | .trade r =>
      [.int r.operationID, .int r.order, .time r.ledgerCloseAt,
       .int r.offerID, .int r.baseAccountID, .int r.baseAssetID,
       .int r.baseAmount, .int r.counterAccountID, .int r.counterAssetID,
       .int r.counterAmount, .bool r.baseIsSeller]
  | .transaction r =>
      [.int r.id, .str r.transactionHash, .int r.ledgerSequence,
       .int r.applicationOrder, .str r.account, .int r.accountSequence,
       .int r.feePaid, .int r.operationCount, .str r.txEnvelope,
       .str r.txResult, .str r.txMeta, .str r.txFeeMeta,
       .strList r.signaturesString, .optStr r.timeBounds, .str r.memoType,
       .optStr r.memo, .time r.createdAt, .time r.updatedAt]
  | .transactionParticipant r =>
      [.int r.transactionID, .int r.accountID]

/-- GetAddresses of each row variant: the account addresses the row
references for identifier resolution.  Modelled from the spec: the method
bodies are outside the two source files; the variants carrying an Address
helper field (and the trade row's two address fields) report them, the
others report none (spec section 3, capability (c)). -/
def Row.getAddresses : Row → List String
  | .effect r => [r.address]
  | .operation _ => []
  | .operationParticipant r => [r.address]
  | .ledger _ => []
  | .trade r => [r.baseAddress, r.counterAddress]
  | .transaction _ => []
  | .transactionParticipant r => [r.address]

/-- Map lookup: the value bound to the first occurrence of the key. -/
def alGet {α β : Type} [DecidableEq α] : List (α × β) → α → Option β
  | [], _ => none
  | (k, v) :: rest, a => if k = a then some v else alGet rest a

/-- Map assignment: replace the binding of the key, or append one. -/
def alSet {α β : Type} [DecidableEq α] : List (α × β) → α → β → List (α × β)
  | [], a, b => [(a, b)]
  | (k, v) :: rest, a, b =>
      if k = a then (a, b) :: rest else (k, v) :: alSet rest a b

/-- An sq.InsertBuilder: target table, column list, and the flat list of
bound values accumulated by Values(params...). -/
structure Stmt where
  table : TableName
  columns : List String
  values : List Param
deriving DecidableEq, Repr

/-- The column list of each table's insert builder, from the
create*InsertBuilder functions of ingestion.go. -/
def builderColumns : TableName → List String
  | .effects =>
      ["history_account_id", "history_operation_id", "\"order\"", "type",
       "details"]
  | .ledgers =>
      ["importer_version", "id", "sequence", "ledger_hash",
       "previous_ledger_hash", "total_coins", "fee_pool", "base_fee",
       "base_reserve", "max_tx_set_size", "closed_at", "created_at",
       "updated_at", "transaction_count", "operation_count",
       "protocol_version", "ledger_header"]
  | .operationParticipants =>
      ["history_operation_id", "history_account_id"]
  | .operations =>
      ["id", "transaction_id", "application_order", "source_account", "type",
       "details"]
  | .trades =>
      ["history_operation_id", "\"order\"", "ledger_closed_at", "offer_id",
       "base_account_id", "base_asset_id", "base_amount",
       "counter_account_id", "counter_asset_id", "counter_amount",
       "base_is_seller"]
  | .transactionParticipants =>
      ["history_transaction_id", "history_account_id"]
  | .transactions =>
      ["id", "transaction_hash", "ledger_sequence", "application_order",
       "account", "account_sequence", "fee_paid", "operation_count",
       "tx_envelope", "tx_result", "tx_meta", "tx_fee_meta", "signatures",
       "time_bounds", "memo_type", "memo", "created_at", "updated_at"]

/-- The fresh, empty insert builder for a table
(createInsertBuilderByTableName in ingestion.go). -/
def initBuilder (t : TableName) : Stmt :=
  { table := t, columns := builderColumns t, values := [] }

/-- The builders map as a Go map modelled by an association list. -/
abbrev Builders : Type := List (TableName × Stmt)

/-- The builders map created by createInsertBuilders in ingestion.go: one
fresh builder per table, in the source's initialization order. -/
def initialBuilders : Builders :=
  allTableNames.map fun t => (t, initBuilder t)

/-- The state of Flush's per-row insert loop: the builders map, the
per-table running parameter count, and the trace of statements executed so
far against the open transaction. -/
structure LoopState where
  builders : Builders
  counts : List (TableName × Nat)
  execs : List Stmt

/-- The running count for a table: Go map indexing with zero default. -/
def cntGet (m : List (TableName × Nat)) (t : TableName) : Nat :=
  (alGet m t).getD 0

/-- One iteration of Flush's insert loop (ingestion.go lines 100-120):
append the row's parameter tuple to its table's builder and bump the
table's running count; if the count now exceeds 65000 the statement is
executed immediately, the count resets to zero and a fresh builder is
created for the table.  A missing builder aborts Flush with the
"insert builder does not exist" error. -/
def flushStep (s : LoopState) (r : Row) : Except String LoopState :=
  let tn := r.getTableName
  let params := r.getParams
  match alGet s.builders tn with
  | none => .error (tn.toString ++ " insert builder does not exist")
  | some b =>
    let b' : Stmt := { b with values := b.values ++ params }
    let newCnt := cntGet s.counts tn + params.length
    if 65000 < newCnt then
      .ok { builders := alSet (alSet s.builders tn b') tn (initBuilder tn),
            counts := alSet s.counts tn 0,
            execs := s.execs ++ [b'] }
    else
      .ok { builders := alSet s.builders tn b',
            counts := alSet s.counts tn newCnt,
            execs := s.execs }

/-- Flush's insert loop over the buffered rows, in buffer order. -/
def flushLoop (s : LoopState) : List Row → Except String LoopState
  | [] => .ok s
  | r :: rs =>
    match flushStep s r with
    | .error e => .error e
    | .ok s' => flushLoop s' rs

/-- Flush's trailing loop (ingestion.go lines 123-130): execute the pending
statement of every table whose residual parameter count is positive.  Go
iterates the paramsCount map in unspecified order; the model iterates it in
insertion order, which fixes only the (irrelevant) cross-table order. -/
def flushFinal (s : LoopState) : List Stmt :=
  s.counts.filterMap fun p =>
    if 0 < p.2 then alGet s.builders p.1 else none

/-- The insert phase of Flush: the per-row loop followed by the trailing
executions, returning the full ordered trace of executed statements. -/
def flushInserts (builders : Builders) (rows : List Row) :
    Except String (List Stmt) :=
  match flushLoop { builders := builders, counts := [], execs := [] } rows with
  | .error e => .error e
  | .ok s => .ok (s.execs ++ flushFinal s)

/-- The parameters destined for one table: the concatenated parameter
tuples of the buffered rows targeting it, in buffer order. -/
def tableParams (t : TableName) (rows : List Row) : List Param :=
  (rows.filter fun r => r.getTableName = t).flatMap Row.getParams

/-- The values carried to one table by a trace of executed statements. -/
def execValues (t : TableName) (es : List Stmt) : List Param :=
  (es.filter fun st => st.table = t).flatMap Stmt.values

/-- The pending (appended but not yet executed) values of one table's
builder. -/
def pending (t : TableName) (bs : Builders) : List Param :=
  ((alGet bs t).map Stmt.values).getD []

/-- The invariant of Flush's insert loop after processing a list of rows:
the counts map has no duplicate keys; every table has a builder whose
table, columns and accumulated-value count are correct; the running count
never rests above the 65000 threshold; the values executed so far plus the
pending values of each table are exactly the parameters of the processed
rows of that table, in order; and every executed statement stayed within
65018 parameters. -/
structure LoopInv (processed : List Row) (s : LoopState) : Prop where
  nodupCounts : (s.counts.map Prod.fst).Nodup
  builders_spec : ∀ t, ∃ b, alGet s.builders t = some b ∧ b.table = t ∧
    b.columns = builderColumns t ∧ b.values.length = cntGet s.counts t
  cnt_le : ∀ t, cntGet s.counts t ≤ 65000
  partitioned : ∀ t,
    execValues t s.execs ++ pending t s.builders = tableParams t processed
  execBound : ∀ st ∈ s.execs, st.values.length ≤ 65018

/-- A round trip against the destination store. -/
inductive StoreOp
  | getCreateAsset (asset : String)
  | queryAccounts (addresses : List String)
  | createAccounts (addresses : List String)
  | execStatement (stmt : Stmt)
  | commitTx
  | beginTx
deriving DecidableEq, Repr

/-- The destination store's asset table: asset descriptor to identifier,
plus the next fresh identifier.  Asset descriptors (xdr.Asset) are modelled
as canonical strings. -/
structure AssetStore where
  assets : List (String × Int)
  nextID : Int
deriving DecidableEq, Repr

/-- Modelled from the spec: history.Q.GetCreateAssetID (called by the Trade
emitter, body not under src/) — "an asset lookup/creation service keyed by
asset descriptor returning stable integer identifiers" (spec section 6):
return the existing identifier for the asset, or create a record with a
fresh identifier. -/
def getCreateAssetID (st : AssetStore) (asset : String) : Int × AssetStore :=
  match alGet st.assets asset with
  | some id => (id, st)
  | none =>
      (st.nextID,
       { assets := st.assets ++ [(asset, st.nextID)], nextID := st.nextID + 1 })

/-- The destination store's account table: address to identifier, plus the
next fresh identifier. -/
structure HistoryStore where
  accounts : List (String × Int)
  nextID : Int
deriving DecidableEq, Repr

/-- Go map indexing into an address-to-identifier map: zero when absent. -/
def mapGet (m : List (String × Int)) (k : String) : Int :=
  (alGet m k).getD 0

/-- The account records created for a list of addresses: consecutive fresh
identifiers starting at the given one. -/
def createAccountRecords (nextID : Int) : List String → List (String × Int)
  | [] => []
  | a :: rest => (a, nextID) :: createAccountRecords (nextID + 1) rest

/-- Modelled from the spec: history.Q.CreateAccounts (body not under
src/) — "any address with no existing record is inserted as a new account
record, allocating a fresh identifier from the store" (spec section 4.1):
insert one record per given address, with fresh identifiers. -/
def createAccounts (store : HistoryStore) (addrs : List String) :
    List (String × Int) × HistoryStore :=
  let created := createAccountRecords store.nextID addrs
  (created,
   { accounts := store.accounts ++ created,
     nextID := store.nextID + addrs.length })

/-- The Ingestion object of main.go, without the db handle: whether a
transaction is open, the insert builders map and the pending row buffer. -/
structure Ingestion where
  txOpen : Bool
  builders : Builders
  rowsToInsert : List Row
deriving DecidableEq, Repr

/-- Start (ingestion.go): begin a transaction, recreate all insert
builders, clear the row buffer. -/
def Ingestion.Start (_ing : Ingestion) : Ingestion × List StoreOp :=
  ({ txOpen := true, builders := initialBuilders, rowsToInsert := [] },
   [.beginTx])

/-- The state Start always produces. -/
def startState : Ingestion :=
  { txOpen := true, builders := initialBuilders, rowsToInsert := [] }

/-- An opaque details payload together with the outcome of serializing it:
json.Marshal is outside the embedded code, so a Details value carries its
own canonical encoding or its encoding error. -/
inductive Details
  | ok (encoding : String)
  | bad (e : String)
deriving DecidableEq, Repr

/-- The outcome of json.Marshal on a details payload. -/
def jsonMarshal : Details → Except String String
  | .ok s => .ok s
  | .bad e => .error e

/-- Effect (ingestion.go): serialize the details, then buffer one
history_effects row; a serialization failure surfaces the error as-is and
buffers nothing. -/
def Ingestion.Effect (ing : Ingestion) (address : String) (opid : Int)
    (order : Int) (typ : Int) (details : Details) : Except String Ingestion :=
  match jsonMarshal details with
  | .error err => .error err
  | .ok djson =>
      .ok { ing with rowsToInsert := ing.rowsToInsert ++
        [.effect { accountID := 0, operationID := opid, order := order, type := typ, details := djson, address := address }] }

/-- Operation (ingestion.go): serialize the details, then buffer one
history_operations row; a serialization failure surfaces the error as-is
and buffers nothing. -/
def Ingestion.Operation (ing : Ingestion) (id : Int) (txid : Int)
    (order : Int) (source : String) (typ : Int) (details : Details) :
    Except String Ingestion :=
  match jsonMarshal details with
  | .error err => .error err
  | .ok djson =>
      .ok { ing with rowsToInsert := ing.rowsToInsert ++
        [.operation { id := id, txID := txid, order := order, source := source, type := typ, details := djson }] }

/-- OperationParticipants (ingestion.go): buffer one
history_operation_participants row per participant account, in order. -/
def Ingestion.OperationParticipants (ing : Ingestion) (op : Int)
    (aids : List String) : Ingestion :=
  { ing with rowsToInsert := ing.rowsToInsert ++
      aids.map fun aid => .operationParticipant { operationID := op, accountID := 0, address := aid } }

/-- TransactionParticipants (ingestion.go): buffer one
history_transaction_participants row per participant account, in order. -/
def Ingestion.TransactionParticipants (ing : Ingestion) (tx : Int)
    (aids : List String) : Ingestion :=
  { ing with rowsToInsert := ing.rowsToInsert ++
      aids.map fun aid => .transactionParticipant { transactionID := tx, accountID := 0, address := aid } }

/-- xdr.TimeBounds, as consumed by formatTimeBounds. -/
structure TimeBounds where
  minTime : Int
  maxTime : Int
deriving DecidableEq, Repr

/-- formatTimeBounds (ingestion.go): nil bounds store NULL; a zero MaxTime
stores the open-ended interval literal; otherwise the two-ended literal. -/
def formatTimeBounds : Option TimeBounds → Option String
  | none => none
  | some bounds =>
      if bounds.maxTime = 0 then
        some ("[" ++ toString bounds.minTime ++ ",]")
      else
        some ("[" ++ toString bounds.minTime ++ "," ++ toString bounds.maxTime ++ "]")

/-- core.Transaction, as consumed by the Transaction emitter (the struct
and its helper methods are outside src/; each field models the value of
the corresponding accessor ingestion.go calls). -/
structure CoreTransaction where
  transactionHash : String
  ledgerSequence : Int
  index : Int
  sourceAddress : String
  sequence : Int
  fee : Int
  operationCount : Int
  envelopeXDR : String
  resultXDR : String
  resultMetaXDR : String
  base64Signatures : List String
  timeBounds : Option TimeBounds
  memoType : String
  memo : Option String
deriving DecidableEq, Repr

/-- core.TransactionFee, as consumed by the Transaction emitter. -/
structure TransactionFee where
  changesXDR : String
deriving DecidableEq, Repr

/-- Transaction (ingestion.go): buffer one history_transactions row. -/
def Ingestion.Transaction (ing : Ingestion) (now : Int) (id : Int)
    (tx : CoreTransaction) (fee : TransactionFee) : Ingestion :=
  { ing with rowsToInsert := ing.rowsToInsert ++
      [.transaction { id := id, transactionHash := tx.transactionHash, ledgerSequence := tx.ledgerSequence, applicationOrder := tx.index, account := tx.sourceAddress, accountSequence := tx.sequence, feePaid := tx.fee, operationCount := tx.operationCount, txEnvelope := tx.envelopeXDR, txResult := tx.resultXDR, txMeta := tx.resultMetaXDR, txFeeMeta := fee.changesXDR, signaturesString := tx.base64Signatures, timeBounds := formatTimeBounds tx.timeBounds, memoType := tx.memoType, memo := tx.memo, createdAt := now, updatedAt := now }] }

/-- xdr.ClaimOfferAtom, as consumed by the Trade emitter: the seller's
address, the offer identifier, and the sold/bought asset descriptors and
amounts. -/
structure ClaimOfferAtom where
  sellerAddress : String
  offerId : Int
  assetSold : String
  amountSold : Int
  assetBought : String
  amountBought : Int
deriving DecidableEq, Repr

/-- The canonicalization core of the Trade emitter (ingestion.go lines
316-342), once the two asset identifiers are resolved: map seller and
buyer to base and counter based on ordering of the identifiers, and build
the trade row. -/
def tradeRowOf (opid : Int) (order : Int) (sellerAddress : String)
    (buyerAddress : String) (soldAssetId : Int) (boughtAssetId : Int)
    (amountSold : Int) (amountBought : Int) (offerId : Int)
    (ledgerClosedAt : Int) : TradeRow :=
  let sides :=
    if soldAssetId < boughtAssetId then
      (sellerAddress, soldAssetId, amountSold, buyerAddress, boughtAssetId, amountBought)
    else
      (buyerAddress, boughtAssetId, amountBought, sellerAddress, soldAssetId, amountSold)
  { operationID := opid, order := order, ledgerCloseAt := ledgerClosedAt, offerID := offerId, baseAccountID := 0, baseAssetID := sides.2.1, baseAmount := sides.2.2.1, counterAccountID := 0, counterAssetID := sides.2.2.2.2.1, counterAmount := sides.2.2.2.2.2, baseIsSeller := decide (soldAssetId < boughtAssetId), baseAddress := sides.1, counterAddress := sides.2.2.2.1 }

/-- Trade (ingestion.go): resolve (get-or-create) the identifiers of the
sold and bought assets against the destination store, canonicalize to
base/counter by identifier order, and buffer one history_trades row.  The
two asset resolutions are destination-store round trips, recorded in the
returned operation trace. -/
def Ingestion.Trade (ing : Ingestion) (st : AssetStore) (opid : Int)
    (order : Int) (buyer : String) (trade : ClaimOfferAtom)
    (ledgerClosedAt : Int) : Ingestion × AssetStore × List StoreOp :=
  let sold := getCreateAssetID st trade.assetSold
  let bought := getCreateAssetID sold.2 trade.assetBought
  let row := tradeRowOf opid order trade.sellerAddress buyer sold.1 bought.1 trade.amountSold trade.amountBought trade.offerId ledgerClosedAt
  ({ ing with rowsToInsert := ing.rowsToInsert ++ [.trade row] },
   bought.2,
   [.getCreateAsset trade.assetSold, .getCreateAsset trade.assetBought])

/-- core.LedgerHeader, as consumed by the Ledger emitter (the struct itself
is outside src/; these are exactly the fields ingestion.go reads). -/
structure LedgerHeader where
  sequence : Int
  ledgerHash : String
  prevHash : String
  closeTime : Int
  totalCoins : Int
  feePool : Int
  baseFee : Int
  baseReserve : Int
  maxTxSetSize : Int
  ledgerVersion : Int
  dataXDR : String
deriving DecidableEq, Repr

/-- Ledger (ingestion.go): buffer one history_ledgers row tagged with
CurrentVersion.  time.Now is passed in as the clock value now. -/
def Ingestion.Ledger (ing : Ingestion) (now : Int) (id : Int)
    (header : LedgerHeader) (txs : Int) (ops : Int) : Ingestion :=
  { ing with rowsToInsert := ing.rowsToInsert ++
      [.ledger { importerVersion := CurrentVersion, id := id, sequence := header.sequence, ledgerHash := header.ledgerHash, previousLedgerHash := if header.sequence > 1 then some header.prevHash else none, totalCoins := header.totalCoins, feePool := header.feePool, baseFee := header.baseFee, baseReserve := header.baseReserve, maxTxSetSize := header.maxTxSetSize, closedAt := header.closeTime, createdAt := now, updatedAt := now, transactionCount := txs, operationCount := ops, protocolVersion := header.ledgerVersion, ledgerHeaderXDR := some header.dataXDR }] }

/-- UpdateAccountIDs of each row variant: rewrite the row's account
references into identifiers using the completed address-to-identifier map.
Modelled from the spec: the method bodies are outside the two source
files; each AccountID field is filled from the map entry of the matching
Address helper field (spec section 3, capability (d)). -/
def Row.updateAccountIDs (accounts : List (String × Int)) : Row → Row
  | .effect r => .effect { r with accountID := mapGet accounts r.address }
  | .operation r => .operation r
  | .operationParticipant r =>
      .operationParticipant { r with accountID := mapGet accounts r.address }
  | .ledger r => .ledger r
  | .trade r =>
      .trade { r with baseAccountID := mapGet accounts r.baseAddress, counterAccountID := mapGet accounts r.counterAddress }
  | .transaction r => .transaction r
  | .transactionParticipant r =>
      .transactionParticipant { r with accountID := mapGet accounts r.address }

/-- Append the addresses of one row to the accumulated distinct-address
list, skipping those already present. -/
def addAddrs (acc : List String) : List String → List String
  | [] => acc
  | a :: rest => if a ∈ acc then addAddrs acc rest else addAddrs (acc ++ [a]) rest

/-- Accumulate distinct addresses over the rows, in first-occurrence
order. -/
def collectAddrsAux (acc : List String) : List Row → List String
  | [] => acc
  | r :: rest => collectAddrsAux (addAddrs acc r.getAddresses) rest

/-- The distinct addresses referenced by the buffered rows, in first
occurrence order — the addresses slice UpdateAccountIDs collects
(ingestion.go lines 205-213). -/
def collectAddrs (rows : List Row) : List String :=
  collectAddrsAux [] rows

/-- The address-to-identifier map UpdateAccountIDs assembles before
creating missing accounts: every collected address bound to zero, then
overwritten with the identifiers of the store records matching a collected
address (ingestion.go lines 219-229). -/
def fetchedMap (store : HistoryStore) (rows : List Row) :
    List (String × Int) :=
  let addrs := collectAddrs rows
  let existing := store.accounts.filter fun p => p.1 ∈ addrs
  existing.foldl (fun m p => alSet m p.1 p.2) (addrs.map fun a => (a, 0))

/-- The addresses UpdateAccountIDs inserts as new account records: the
collected addresses still mapped to zero after the fetch (ingestion.go
lines 232-237; Go iterates the map in unspecified order, the model in
first-occurrence order). -/
def missingAddrs (store : HistoryStore) (rows : List Row) : List String :=
  (collectAddrs rows).filter fun a => mapGet (fetchedMap store rows) a = 0

/-- The complete address-to-identifier map (pre-existing and newly created
accounts) that UpdateAccountIDs pushes into every buffered row. -/
def finalMap (store : HistoryStore) (rows : List Row) :
    List (String × Int) :=
  let missing := missingAddrs store rows
  let created := (createAccounts store missing).1
  created.foldl (fun m p => alSet m p.1 p.2) (fetchedMap store rows)

/-- UpdateAccountIDs (ingestion.go lines 200-257): collect the distinct
addresses of the buffered rows; if there are none, do nothing.  Otherwise
fetch the existing account records for them, create account records for
the addresses without one, and rewrite every buffered row with the single
completed map.  Returns the updated store, the rewritten rows and the
store-operation trace. -/
def updateAccountIDs (store : HistoryStore) (rows : List Row) :
    HistoryStore × List Row × List StoreOp :=
  let addrs := collectAddrs rows
  if addrs = [] then (store, rows, [])
  else
    let missing := missingAddrs store rows
    let store' :=
      if missing = [] then store else (createAccounts store missing).2
    let m := finalMap store rows
    let rows' := rows.map fun r => r.updateAccountIDs m
    (store', rows',
     [.queryAccounts addrs] ++
       (if missing = [] then [] else [StoreOp.createAccounts missing]))

/-- Flush (ingestion.go lines 91-138): resolve account identifiers, run
the chunked insert phase, commit, and start a new transaction.  Returns
the new Ingestion state, the updated account store and the full
store-operation trace. -/
def Ingestion.Flush (ing : Ingestion) (store : HistoryStore) :
    Except String (Ingestion × HistoryStore × List StoreOp) :=
  let res := updateAccountIDs store ing.rowsToInsert
  match flushInserts ing.builders res.2.1 with
  | .error e => .error e
  | .ok stmts =>
      .ok (startState, res.1,
        res.2.2 ++ stmts.map StoreOp.execStatement ++ [.commitTx, .beginTx])

/-- Close (ingestion.go): commit the open transaction. -/
def Ingestion.Close (ing : Ingestion) : Ingestion × List StoreOp :=
  ({ ing with txOpen := false }, [.commitTx])

/-- Rollback (ingestion.go): abort the open transaction. -/
def Ingestion.Rollback (ing : Ingestion) : Ingestion :=
  { ing with txOpen := false }

/-- The per-table range deletes Clear issues, in source order: each
destination table paired with its identifying key column (ingestion.go
lines 26-63). -/
def clearTables : List (String × String) :=
  [("history_effects", "history_operation_id"),
   ("history_operation_participants", "history_operation_id"),
   ("history_operations", "id"),
   ("history_transaction_participants", "history_transaction_id"),
   ("history_transactions", "id"),
   ("history_ledgers", "id"),
   ("history_trades", "history_operation_id"),
   ("asset_stats", "id")]

/-- One issued range delete: table, key column, interval start and end. -/
structure DeleteOp where
  table : String
  keyColumn : String
  start : Int
  stop : Int
deriving DecidableEq, Repr

/-- Clear's sequence of DeleteRange calls with early abort: each delete is
issued in order; the first failure (env gives the error DeleteRange
returns for a table, if any) stops the sequence and is returned.  The
issued deletes (including the failing attempt) are returned as the trace. -/
def clearLoop (env : String → Option String) (start stop : Int) :
    List (String × String) → List DeleteOp × Option String
  | [] => ([], none)
  | (tbl, col) :: rest =>
      match env tbl with
      | some e => ([⟨tbl, col, start, stop⟩], some e)
      | none =>
          let r := clearLoop env start stop rest
          (⟨tbl, col, start, stop⟩ :: r.1, r.2)

/-- Clear (ingestion.go lines 26-63): issue one range delete per table of
clearTables, sequentially, returning the first error immediately. -/
def Ingestion.Clear (_ing : Ingestion) (env : String → Option String)
    (start stop : Int) : List DeleteOp × Option String :=
  clearLoop env start stop clearTables

/-- ClearAll (ingestion.go): Clear over the full identifier range
(0 to math.MaxInt64). -/
def Ingestion.ClearAll (ing : Ingestion) (env : String → Option String) :
    List DeleteOp × Option String :=
  ing.Clear env 0 (2 ^ 63 - 1)

/-- Modelled from the spec: DeleteRange's effect on one table's keys (the
body is outside src/) — the deletion interval is half-open, "exclusive of
the end id provided" (ingestion.go comment; spec section 4.1): a key
survives iff it lies outside the interval from start (inclusive) to stop
(exclusive). -/
def applyDeleteRange (start stop : Int) (keys : List Int) : List Int :=
  keys.filter fun k => decide (k < start) || decide (stop ≤ k)

/-- One call to one of the seven emitters, with its typed arguments. -/
inductive EmitterCall
  | effect (address : String) (opid : Int) (order : Int) (typ : Int) (details : Details)
  | operation (id : Int) (txid : Int) (order : Int) (source : String) (typ : Int) (details : Details)
  | operationParticipants (op : Int) (aids : List String)
  | ledger (id : Int) (header : LedgerHeader) (txs : Int) (ops : Int)
  | trade (opid : Int) (order : Int) (buyer : String) (t : ClaimOfferAtom) (ledgerClosedAt : Int)
  | transaction (id : Int) (tx : CoreTransaction) (fee : TransactionFee)
  | transactionParticipants (tx : Int) (aids : List String)

/-- Whether the call is a Trade call. -/
def EmitterCall.isTrade : EmitterCall → Bool
  | .trade _ _ _ _ _ => true
  | _ => false

/-- Run one emitter call. -/
def runEmitter (c : EmitterCall) (ing : Ingestion) (st : AssetStore)
    (now : Int) : Except String (Ingestion × AssetStore × List StoreOp) :=
  match c with
  | .effect address opid order typ details =>
      match ing.Effect address opid order typ details with
      | .error e => .error e
      | .ok ing' => .ok (ing', st, [])
  | .operation id txid order source typ details =>
      match ing.Operation id txid order source typ details with
      | .error e => .error e
      | .ok ing' => .ok (ing', st, [])
  | .operationParticipants op aids =>
      .ok (ing.OperationParticipants op aids, st, [])
  | .ledger id header txs ops =>
      .ok (ing.Ledger now id header txs ops, st, [])
  | .trade opid order buyer t ledgerClosedAt =>
      .ok (ing.Trade st opid order buyer t ledgerClosedAt)
  | .transaction id tx fee =>
      .ok (ing.Transaction now id tx fee, st, [])
  | .transactionParticipants tx aids =>
      .ok (ing.TransactionParticipants tx aids, st, [])

/-- The address-to-resolved-identifier pairs a row carries after
resolution: each Address helper field paired with the AccountID field it
populates. -/
def rowResolutions : Row → List (String × Int)
  | .effect r => [(r.address, r.accountID)]
  | .operationParticipant r => [(r.address, r.accountID)]
  | .transactionParticipant r => [(r.address, r.accountID)]
  | .trade r => [(r.baseAddress, r.baseAccountID), (r.counterAddress, r.counterAccountID)]
  | .operation _ => []
  | .ledger _ => []
  | .transaction _ => []

/-- A sample operation row. -/
def wRow : Row :=
  .operation { id := 1, txID := 2, order := 3, source := "GS", type := 4, details := "d" }

/-- A sample ledger header. -/
def hdrW : LedgerHeader :=
  { sequence := 2, ledgerHash := "abc", prevHash := "prev", closeTime := 100, totalCoins := 1000, feePool := 10, baseFee := 100, baseReserve := 5, maxTxSetSize := 50, ledgerVersion := 9, dataXDR := "xdr" }

/-- A sample empty asset store. -/
def astW : AssetStore := { assets := [], nextID := 1 }

/-- A sample matched offer. -/
def coaW : ClaimOfferAtom :=
  { sellerAddress := "GSELLER", offerId := 1, assetSold := "USD-b", amountSold := 10, assetBought := "EUR-b", amountBought := 20 }

/-- A sample account store holding one record. -/
def storeW : HistoryStore := { accounts := [("GA", 5)], nextID := 6 }

/-- Sample buffered rows referencing one existing and one new address. -/
def rowsW : List Row :=
  [.effect { accountID := 0, operationID := 7, order := 1, type := 2, details := "d", address := "GA" },
   .operationParticipant { operationID := 7, accountID := 0, address := "GB" }]

/-- A sample DeleteRange environment failing on the operations table. -/
def envW : String → Option String :=
  fun t => if t = "history_operations" then some "boom" else none

/-! ## Theorems -/

theorem alGet_alSet_self {α β : Type} [DecidableEq α]
    (m : List (α × β)) (a : α) (b : β) : alGet (alSet m a b) a = some b := by
  induction m with
  | nil => simp [alGet, alSet]
  | cons p rest ih =>
    obtain ⟨k, v⟩ := p
    by_cases h : k = a
    · simp [alGet, alSet, h]
    · simp [alGet, alSet, h, ih]

theorem alGet_alSet_ne {α β : Type} [DecidableEq α]
    (m : List (α × β)) (a a' : α) (b : β) (h : a' ≠ a) :
    alGet (alSet m a b) a' = alGet m a' := by
  induction m with
  | nil => simp [alGet, alSet, Ne.symm h]
  | cons p rest ih =>
    obtain ⟨k, v⟩ := p
    by_cases hk : k = a
    · subst hk
      simp [alGet, alSet, Ne.symm h]
    · by_cases hk' : k = a'
      · simp [alGet, alSet, hk, hk', h]
      · simp [alGet, alSet, hk, hk', ih]

theorem mem_keys_alSet {α β : Type} [DecidableEq α]
    (m : List (α × β)) (a : α) (b : β) (x : α)
    (hx : x ∈ (alSet m a b).map Prod.fst) :
    x ∈ m.map Prod.fst ∨ x = a := by
  induction m with
  | nil =>
    simp [alSet] at hx
    exact Or.inr hx
  | cons p rest ih =>
    obtain ⟨k, v⟩ := p
    by_cases hk : k = a
    · subst hk
      simp [alSet] at hx
      rcases hx with hx | hx
      · exact Or.inr hx
      · exact Or.inl (by simp [hx])
    · simp [alSet, hk] at hx
      rcases hx with hx | hx
      · exact Or.inl (by simp [hx])
      · rcases ih (by simpa using hx) with h' | h'
        · exact Or.inl (by simp; right; simpa using h')
        · exact Or.inr h'

theorem alSet_keys_nodup {α β : Type} [DecidableEq α]
    (m : List (α × β)) (a : α) (b : β) (h : (m.map Prod.fst).Nodup) :
    ((alSet m a b).map Prod.fst).Nodup := by
  induction m with
  | nil => simp [alSet]
  | cons p rest ih =>
    obtain ⟨k, v⟩ := p
    simp only [List.map_cons, List.nodup_cons] at h
    by_cases hk : k = a
    · subst hk
      simpa [alSet, List.nodup_cons] using h
    · have : ((k, v) :: alSet rest a b).map Prod.fst =
        k :: (alSet rest a b).map Prod.fst := by simp
      simp only [alSet, if_neg hk, this, List.nodup_cons]
      refine ⟨?_, ih h.2⟩
      intro hmem
      rcases mem_keys_alSet rest a b k hmem with h' | h'
      · exact h.1 h'
      · exact hk h'

theorem alGet_mem_of_nodup {α β : Type} [DecidableEq α]
    (m : List (α × β)) (p : α × β) (h : (m.map Prod.fst).Nodup)
    (hp : p ∈ m) : alGet m p.1 = some p.2 := by
  induction m with
  | nil => cases hp
  | cons q rest ih =>
    obtain ⟨k, v⟩ := q
    simp only [List.map_cons, List.nodup_cons] at h
    rcases List.mem_cons.1 hp with hp' | hp'
    · subst hp'
      simp [alGet]
    · have hk : k ≠ p.1 := by
        intro hkp
        exact h.1 (hkp ▸ List.mem_map_of_mem Prod.fst hp')
      simp [alGet, hk, ih h.2 hp']

theorem rowParams_length_pos (r : Row) : 0 < r.getParams.length := by
  cases r <;> simp [Row.getParams]

theorem rowParams_length_le (r : Row) : r.getParams.length ≤ 18 := by
  cases r <;> simp [Row.getParams]

theorem tableParams_append (t : TableName) (l1 l2 : List Row) :
    tableParams t (l1 ++ l2) = tableParams t l1 ++ tableParams t l2 := by
  simp [tableParams]

theorem tableParams_single_same (t : TableName) (r : Row)
    (h : r.getTableName = t) : tableParams t [r] = r.getParams := by
  simp [tableParams, h]

theorem tableParams_single_ne (t : TableName) (r : Row)
    (h : ¬r.getTableName = t) : tableParams t [r] = [] := by
  simp [tableParams, h]

theorem execValues_append (t : TableName) (e1 e2 : List Stmt) :
    execValues t (e1 ++ e2) = execValues t e1 ++ execValues t e2 := by
  simp [execValues]

theorem execValues_single_same (t : TableName) (st : Stmt)
    (h : st.table = t) : execValues t [st] = st.values := by
  simp [execValues, h]

theorem execValues_single_ne (t : TableName) (st : Stmt)
    (h : ¬st.table = t) : execValues t [st] = [] := by
  simp [execValues, h]

theorem cntGet_alSet_self (m : List (TableName × Nat)) (t : TableName)
    (v : Nat) : cntGet (alSet m t v) t = v := by
  simp [cntGet, alGet_alSet_self]

theorem cntGet_alSet_ne (m : List (TableName × Nat)) (t t' : TableName)
    (v : Nat) (h : t' ≠ t) : cntGet (alSet m t v) t' = cntGet m t' := by
  simp [cntGet, alGet_alSet_ne _ _ _ _ h]

theorem pending_alSet_self (bs : Builders) (t : TableName) (b : Stmt) :
    pending t (alSet bs t b) = b.values := by
  simp [pending, alGet_alSet_self]

theorem pending_alSet_ne (bs : Builders) (t t' : TableName) (b : Stmt)
    (h : t' ≠ t) : pending t' (alSet bs t b) = pending t' bs := by
  simp [pending, alGet_alSet_ne _ _ _ _ h]

theorem alGet_initialBuilders (t : TableName) :
    alGet initialBuilders t = some (initBuilder t) := by
  cases t <;> rfl

theorem loopInv_init :
    LoopInv [] { builders := initialBuilders, counts := [], execs := [] } := by
  refine ⟨by simp, ?_, ?_, ?_, ?_⟩
  · intro t
    exact ⟨initBuilder t, alGet_initialBuilders t, rfl, rfl, rfl⟩
  · intro t
    simp [cntGet, alGet]
  · intro t
    simp [execValues, pending, alGet_initialBuilders, initBuilder, tableParams]
  · intro st hst
    cases hst

theorem flushStep_inv (processed : List Row) (s : LoopState) (r : Row)
    (inv : LoopInv processed s) :
    ∃ s', flushStep s r = .ok s' ∧ LoopInv (processed ++ [r]) s' ∧
      (cntGet s.counts r.getTableName + r.getParams.length ≤ 65000 →
        s'.execs = s.execs) := by
  obtain ⟨b, hb, hbt, hbc, hbl⟩ := inv.builders_spec r.getTableName
  by_cases hcnt : 65000 < cntGet s.counts r.getTableName + r.getParams.length
  · refine ⟨{ builders := alSet (alSet s.builders r.getTableName { b with values := b.values ++ r.getParams }) r.getTableName (initBuilder r.getTableName), counts := alSet s.counts r.getTableName 0, execs := s.execs ++ [{ b with values := b.values ++ r.getParams }] }, ?_, ?_, ?_⟩
    · simp only [flushStep, hb]
      rw [if_pos hcnt]
    · constructor
      · exact alSet_keys_nodup _ _ _ inv.nodupCounts
      · intro t
        dsimp only
        by_cases ht : t = r.getTableName
        · subst ht
          refine ⟨initBuilder r.getTableName, alGet_alSet_self _ _ _, rfl, rfl, ?_⟩
          simp [initBuilder, cntGet_alSet_self]
        · obtain ⟨bt, hbt', h1, h2, h3⟩ := inv.builders_spec t
          refine ⟨bt, ?_, h1, h2, ?_⟩
          · rw [alGet_alSet_ne _ _ _ _ ht, alGet_alSet_ne _ _ _ _ ht, hbt']
          · rw [cntGet_alSet_ne _ _ _ _ ht]
            exact h3
      · intro t
        dsimp only
        by_cases ht : t = r.getTableName
        · subst ht
          simp [cntGet_alSet_self]
        · rw [cntGet_alSet_ne _ _ _ _ ht]
          exact inv.cnt_le t
      · intro t
        dsimp only
        by_cases ht : t = r.getTableName
        · subst ht
          have hpend : pending r.getTableName s.builders = b.values := by
            simp [pending, hb]
          have hpart := inv.partitioned r.getTableName
          rw [hpend] at hpart
          rw [execValues_append,
              execValues_single_same r.getTableName { b with values := b.values ++ r.getParams } hbt,
              pending_alSet_self, tableParams_append,
              tableParams_single_same _ r rfl, ← hpart]
          simp [initBuilder]
        · have hne : ¬({ b with values := b.values ++ r.getParams } : Stmt).table = t := by
            intro hh
            have hh' : b.table = t := hh
            exact ht (hbt.symm.trans hh').symm
          rw [execValues_append, execValues_single_ne _ _ hne,
              pending_alSet_ne _ _ _ _ ht, pending_alSet_ne _ _ _ _ ht,
              tableParams_append, tableParams_single_ne _ r (fun hh => ht hh.symm)]
          simp [inv.partitioned t]
      · intro st hst
        dsimp only at hst
        rcases List.mem_append.1 hst with h | h
        · exact inv.execBound st h
        · have hst' : st = { b with values := b.values ++ r.getParams } :=
            List.mem_singleton.1 h
          rw [hst']
          have h1 := inv.cnt_le r.getTableName
          have h2 := rowParams_length_le r
          simp only [List.length_append]
          omega
    · intro hle
      exact absurd hcnt (not_lt.2 hle)
  · refine ⟨{ builders := alSet s.builders r.getTableName { b with values := b.values ++ r.getParams }, counts := alSet s.counts r.getTableName (cntGet s.counts r.getTableName + r.getParams.length), execs := s.execs }, ?_, ?_, fun _ => rfl⟩
    · simp only [flushStep, hb]
      rw [if_neg hcnt]
    · constructor
      · exact alSet_keys_nodup _ _ _ inv.nodupCounts
      · intro t
        dsimp only
        by_cases ht : t = r.getTableName
        · subst ht
          refine ⟨{ b with values := b.values ++ r.getParams },
            alGet_alSet_self _ _ _, hbt, hbc, ?_⟩
          rw [cntGet_alSet_self]
          simp [hbl]
        · obtain ⟨bt, hbt', h1, h2, h3⟩ := inv.builders_spec t
          refine ⟨bt, ?_, h1, h2, ?_⟩
          · rw [alGet_alSet_ne _ _ _ _ ht, hbt']
          · rw [cntGet_alSet_ne _ _ _ _ ht]
            exact h3
      · intro t
        dsimp only
        by_cases ht : t = r.getTableName
        · subst ht
          rw [cntGet_alSet_self]
          omega
        · rw [cntGet_alSet_ne _ _ _ _ ht]
          exact inv.cnt_le t
      · intro t
        dsimp only
        by_cases ht : t = r.getTableName
        · subst ht
          have hpend : pending r.getTableName s.builders = b.values := by
            simp [pending, hb]
          have hpart := inv.partitioned r.getTableName
          rw [hpend] at hpart
          rw [pending_alSet_self, tableParams_append,
              tableParams_single_same _ r rfl, ← hpart]
          simp
        · rw [pending_alSet_ne _ _ _ _ ht, tableParams_append,
              tableParams_single_ne _ r (fun hh => ht hh.symm)]
          simp [inv.partitioned t]
      · intro st hst
        exact inv.execBound st hst

theorem flushLoop_inv (rows : List Row) :
    ∀ (processed : List Row) (s : LoopState), LoopInv processed s →
      ∃ s', flushLoop s rows = .ok s' ∧ LoopInv (processed ++ rows) s' := by
  induction rows with
  | nil =>
    intro processed s inv
    exact ⟨s, rfl, by simpa using inv⟩
  | cons r rs ih =>
    intro processed s inv
    obtain ⟨s1, hs1, inv1, _⟩ := flushStep_inv processed s r inv
    obtain ⟨s', hs', inv'⟩ := ih (processed ++ [r]) s1 inv1
    refine ⟨s', ?_, by simpa using inv'⟩
    simp [flushLoop, hs1, hs']

theorem filter_filterMap_counts_nil (bs : Builders) (t : TableName)
    (htab : ∀ k b, alGet bs k = some b → b.table = k)
    (cl : List (TableName × Nat)) (hout : t ∉ cl.map Prod.fst) :
    ((cl.filterMap fun p => if 0 < p.2 then alGet bs p.1 else none).filter
      fun st => st.table = t) = [] := by
  induction cl with
  | nil => rfl
  | cons p rest ih =>
    obtain ⟨k, c⟩ := p
    simp only [List.map_cons, List.mem_cons] at hout
    push_neg at hout
    by_cases hc : 0 < c
    · cases hk : alGet bs k with
      | none => simpa [List.filterMap_cons, hc, hk] using ih hout.2
      | some bk =>
        have : bk.table = k := htab k bk hk
        have hne : ¬bk.table = t := by
          rw [this]
          exact fun hh => hout.1 hh.symm
        simpa [List.filterMap_cons, hc, hk, List.filter_cons, hne] using ih hout.2
    · simpa [List.filterMap_cons, hc] using ih hout.2

theorem filter_flushFinal_eq (bs : Builders) (t : TableName)
    (htab : ∀ k b, alGet bs k = some b → b.table = k)
    (cl : List (TableName × Nat)) (hnd : (cl.map Prod.fst).Nodup) :
    ((cl.filterMap fun p => if 0 < p.2 then alGet bs p.1 else none).filter
      fun st => st.table = t) =
    if 0 < (alGet cl t).getD 0 then (alGet bs t).toList else [] := by
  induction cl with
  | nil => simp [alGet]
  | cons p rest ih =>
    obtain ⟨k, c⟩ := p
    simp only [List.map_cons, List.nodup_cons] at hnd
    by_cases hk : k = t
    · subst hk
      have htail := filter_filterMap_counts_nil bs k htab rest hnd.1
      by_cases hc : 0 < c
      · cases hbk : alGet bs k with
        | none => simp [List.filterMap_cons, hc, hbk, alGet, htail]
        | some bk =>
          have hbt : bk.table = k := htab k bk hbk
          simp [List.filterMap_cons, hc, hbk, alGet, List.filter_cons, hbt, htail]
      · simp [List.filterMap_cons, hc, alGet, htail]
    · have hrec := ih hnd.2
      by_cases hc : 0 < c
      · cases hbk : alGet bs k with
        | none => simpa [List.filterMap_cons, hc, hbk, alGet, hk] using hrec
        | some bk =>
          have hbt : bk.table = k := htab k bk hbk
          have hne : ¬bk.table = t := by
            rw [hbt]
            exact hk
          simpa [List.filterMap_cons, hc, hbk, alGet, hk, List.filter_cons, hne] using hrec
      · simpa [List.filterMap_cons, hc, alGet, hk] using hrec

theorem execValues_flushFinal (processed : List Row) (s : LoopState)
    (inv : LoopInv processed s) (t : TableName) :
    execValues t (flushFinal s) = pending t s.builders := by
  obtain ⟨b, hb, hbt, _, hbl⟩ := inv.builders_spec t
  have htab : ∀ k bk, alGet s.builders k = some bk → bk.table = k := by
    intro k bk hk
    obtain ⟨b', hb', hbt', _, _⟩ := inv.builders_spec k
    rw [hk] at hb'
    cases hb'
    exact hbt'
  have hchar := filter_flushFinal_eq s.builders t htab s.counts inv.nodupCounts
  rw [execValues, flushFinal, hchar, hb]
  by_cases hc : 0 < (alGet s.counts t).getD 0
  · simp [hc, pending, hb]
  · have hz : cntGet s.counts t = 0 := by
      simp [cntGet]
      omega
    have : b.values = [] := by
      rw [hz] at hbl
      exact List.eq_nil_of_length_eq_zero hbl
    simp [hc, pending, hb, this]

theorem flushFinal_bound (processed : List Row) (s : LoopState)
    (inv : LoopInv processed s) :
    ∀ st ∈ flushFinal s, st.values.length ≤ 65000 := by
  intro st hst
  rw [flushFinal, List.mem_filterMap] at hst
  obtain ⟨p, _, hp⟩ := hst
  by_cases hc : 0 < p.2
  · rw [if_pos hc] at hp
    obtain ⟨b, hb, _, _, hbl⟩ := inv.builders_spec p.1
    rw [hb] at hp
    cases hp
    rw [hbl]
    exact inv.cnt_le p.1
  · rw [if_neg hc] at hp
    cases hp

/-- Full characterization of Flush's insert phase from the Start state: it
never fails, every executed statement carries at most 65018 parameters, and
per table the concatenated values of the executed statements are exactly
the buffered parameters of that table, in emission order. -/
theorem flushInserts_spec (rows : List Row) :
    ∃ stmts, flushInserts initialBuilders rows = .ok stmts ∧
      (∀ st ∈ stmts, st.values.length ≤ 65018) ∧
      (∀ t, execValues t stmts = tableParams t rows) := by
  obtain ⟨s, hs, inv⟩ := flushLoop_inv rows [] _ loopInv_init
  rw [List.nil_append] at inv
  refine ⟨s.execs ++ flushFinal s, ?_, ?_, ?_⟩
  · rw [flushInserts, hs]
  · intro st hst
    rcases List.mem_append.1 hst with h | h
    · exact inv.execBound st h
    · exact le_trans (flushFinal_bound rows s inv st h) (by omega)
  · intro t
    rw [execValues_append, execValues_flushFinal rows s inv t]
    exact inv.partitioned t

theorem flushLoop_small (rows : List Row)
    (hyp : ∀ t, (tableParams t rows).length ≤ 65000) :
    ∀ (remaining processed : List Row) (s : LoopState),
      rows = processed ++ remaining → LoopInv processed s → s.execs = [] →
      ∃ s', flushLoop s remaining = .ok s' ∧ LoopInv rows s' ∧ s'.execs = [] := by
  intro remaining
  induction remaining with
  | nil =>
    intro processed s hsplit inv hex
    refine ⟨s, rfl, ?_, hex⟩
    rw [hsplit, List.append_nil]
    exact inv
  | cons r rest ih =>
    intro processed s hsplit inv hex
    obtain ⟨s1, hs1, inv1, hexeq⟩ := flushStep_inv processed s r inv
    have hcond : cntGet s.counts r.getTableName + r.getParams.length ≤ 65000 := by
      obtain ⟨b, hb, hbt, hbc, hbl⟩ := inv.builders_spec r.getTableName
      have hpart := inv.partitioned r.getTableName
      have hpend : pending r.getTableName s.builders = b.values := by
        simp [pending, hb]
      rw [hex, hpend] at hpart
      simp only [execValues, List.filter_nil, List.flatMap_nil,
        List.nil_append] at hpart
      have hlen : cntGet s.counts r.getTableName =
          (tableParams r.getTableName processed).length := by
        rw [← hbl, hpart]
      have hsum : tableParams r.getTableName rows =
          tableParams r.getTableName processed ++ r.getParams ++
            tableParams r.getTableName rest := by
        rw [hsplit, show processed ++ (r :: rest) = processed ++ [r] ++ rest by simp,
          tableParams_append, tableParams_append, tableParams_single_same _ r rfl]
      have hle := hyp r.getTableName
      rw [hsum] at hle
      simp only [List.length_append] at hle
      omega
    have hexeq1 := hexeq hcond
    obtain ⟨s', hs', inv', hex'⟩ := ih (processed ++ [r]) s1
      (by rw [hsplit]; simp) inv1 (hexeq1.trans hex)
    exact ⟨s', by simp [flushLoop, hs1, hs'], inv', hex'⟩

/-- Characterization of Flush's insert phase when every table's total
parameter count stays at or below the 65000 threshold: one statement per
nonempty table (none for empty tables), carrying exactly that table's
buffered parameters in emission order. -/
theorem flushInserts_small (rows : List Row)
    (hyp : ∀ t, (tableParams t rows).length ≤ 65000) :
    ∃ stmts, flushInserts initialBuilders rows = .ok stmts ∧
      ∀ t, stmts.filter (fun st => st.table = t) =
        if tableParams t rows = [] then []
        else [{ table := t, columns := builderColumns t,
                values := tableParams t rows }] := by
  obtain ⟨s, hsloop, inv, hex⟩ :=
    flushLoop_small rows hyp rows [] _ rfl loopInv_init rfl
  refine ⟨s.execs ++ flushFinal s, by rw [flushInserts, hsloop], ?_⟩
  intro t
  obtain ⟨b, hb, hbt, hbc, hbl⟩ := inv.builders_spec t
  have hpart := inv.partitioned t
  have hpend : pending t s.builders = b.values := by
    simp [pending, hb]
  rw [hex, hpend] at hpart
  simp only [execValues, List.filter_nil, List.flatMap_nil,
    List.nil_append] at hpart
  have htab : ∀ k bk, alGet s.builders k = some bk → bk.table = k := by
    intro k bk hk
    obtain ⟨b', hb', hbt', _, _⟩ := inv.builders_spec k
    rw [hk] at hb'
    cases hb'
    exact hbt'
  have hchar := filter_flushFinal_eq s.builders t htab s.counts inv.nodupCounts
  rw [hex, List.nil_append, flushFinal, hchar, hb]
  have hcv : cntGet s.counts t = (tableParams t rows).length := by
    rw [← hbl, hpart]
  by_cases hempty : tableParams t rows = []
  · have : ¬0 < (alGet s.counts t).getD 0 := by
      have : cntGet s.counts t = 0 := by
        rw [hcv, hempty]
        rfl
      simp only [cntGet] at this
      omega
    rw [if_neg this, if_pos hempty]
  · have hpos : 0 < (alGet s.counts t).getD 0 := by
      have h0 : 0 < cntGet s.counts t := by
        rw [hcv]
        exact List.length_pos.2 hempty
      simpa [cntGet] using h0
    have hb_eq : b = { table := t, columns := builderColumns t, values := tableParams t rows } := by
      have h1 : b = { table := b.table, columns := b.columns, values := b.values } := rfl
      rw [h1, hbt, hbc, hpart]
    rw [if_pos hpos, if_neg hempty, hb_eq]
    rfl

/-! ### Helper lemmas about address collection and resolution -/

theorem mem_addAddrs_of_mem_acc (l : List String) (acc : List String)
    (x : String) (hx : x ∈ acc) : x ∈ addAddrs acc l := by
  induction l generalizing acc with
  | nil => exact hx
  | cons a rest ih =>
    by_cases h : a ∈ acc
    · simpa [addAddrs, h] using ih acc hx
    · simp only [addAddrs, if_neg h]
      exact ih _ (List.mem_append_left _ hx)

theorem mem_addAddrs_of_mem (l : List String) (acc : List String)
    (x : String) (hx : x ∈ l) : x ∈ addAddrs acc l := by
  induction l generalizing acc with
  | nil => cases hx
  | cons a rest ih =>
    rcases List.mem_cons.1 hx with rfl | hx'
    · by_cases h : x ∈ acc
      · simp only [addAddrs, if_pos h]
        exact mem_addAddrs_of_mem_acc rest acc x h
      · simp only [addAddrs, if_neg h]
        exact mem_addAddrs_of_mem_acc rest _ x (by simp)
    · by_cases h : a ∈ acc
      · simp only [addAddrs, if_pos h]
        exact ih _ hx'
      · simp only [addAddrs, if_neg h]
        exact ih _ hx'

theorem addAddrs_nodup (l : List String) (acc : List String)
    (h : acc.Nodup) : (addAddrs acc l).Nodup := by
  induction l generalizing acc with
  | nil => exact h
  | cons a rest ih =>
    by_cases ha : a ∈ acc
    · simpa [addAddrs, ha] using ih acc h
    · simp only [addAddrs, if_neg ha]
      refine ih _ (List.Nodup.append h (List.nodup_singleton a) ?_)
      intro x hx hxa
      rw [List.mem_singleton] at hxa
      exact ha (hxa ▸ hx)

theorem mem_collectAddrsAux_of_mem_acc (rows : List Row) (acc : List String)
    (x : String) (hx : x ∈ acc) : x ∈ collectAddrsAux acc rows := by
  induction rows generalizing acc with
  | nil => exact hx
  | cons r rest ih => exact ih _ (mem_addAddrs_of_mem_acc _ _ _ hx)

theorem mem_collectAddrsAux (rows : List Row) (acc : List String) (r : Row)
    (a : String) (hr : r ∈ rows) (ha : a ∈ r.getAddresses) :
    a ∈ collectAddrsAux acc rows := by
  induction rows generalizing acc with
  | nil => cases hr
  | cons r0 rest ih =>
    rcases List.mem_cons.1 hr with rfl | hr'
    · exact mem_collectAddrsAux_of_mem_acc rest _ a (mem_addAddrs_of_mem _ _ _ ha)
    · exact ih _ hr'

theorem mem_collectAddrs (rows : List Row) (r : Row) (a : String)
    (hr : r ∈ rows) (ha : a ∈ r.getAddresses) : a ∈ collectAddrs rows :=
  mem_collectAddrsAux rows [] r a hr ha

theorem collectAddrs_nodup (rows : List Row) : (collectAddrs rows).Nodup := by
  rw [collectAddrs]
  have haux : ∀ acc : List String, acc.Nodup →
      (collectAddrsAux acc rows).Nodup := by
    induction rows with
    | nil => exact fun _ h => h
    | cons r rest ih => exact fun acc h => ih _ (addAddrs_nodup _ _ h)
  exact haux [] (by simp)

theorem getAddresses_nil_of_collect_nil (rows : List Row)
    (h : collectAddrs rows = []) (r : Row) (hr : r ∈ rows) :
    r.getAddresses = [] := by
  cases hga : r.getAddresses with
  | nil => rfl
  | cons a rest =>
    have hmem : a ∈ collectAddrs rows :=
      mem_collectAddrs rows r a hr (by rw [hga]; simp)
    rw [h] at hmem
    cases hmem

theorem alGet_foldl_alSet_not_mem {α β : Type} [DecidableEq α]
    (l : List (α × β)) (a : α) (ha : a ∉ l.map Prod.fst) :
    ∀ m, alGet (l.foldl (fun acc q => alSet acc q.1 q.2) m) a = alGet m a := by
  induction l with
  | nil => intro m; rfl
  | cons p rest ih =>
    intro m
    simp only [List.map_cons, List.mem_cons] at ha
    push_neg at ha
    rw [List.foldl_cons, ih ha.2, alGet_alSet_ne _ _ _ _ ha.1]

theorem alGet_foldl_alSet_mem {α β : Type} [DecidableEq α]
    (l : List (α × β)) (p : α × β) (hnd : (l.map Prod.fst).Nodup)
    (hp : p ∈ l) :
    ∀ m, alGet (l.foldl (fun acc q => alSet acc q.1 q.2) m) p.1 = some p.2 := by
  induction l with
  | nil => cases hp
  | cons q rest ih =>
    intro m
    simp only [List.map_cons, List.nodup_cons] at hnd
    rcases List.mem_cons.1 hp with rfl | hp'
    · rw [List.foldl_cons, alGet_foldl_alSet_not_mem rest p.1 hnd.1,
        alGet_alSet_self]
    · rw [List.foldl_cons]
      exact ih hnd.2 hp' _

theorem createAccountRecords_keys (l : List String) :
    ∀ n : Int, (createAccountRecords n l).map Prod.fst = l := by
  induction l with
  | nil => intro n; rfl
  | cons a rest ih =>
    intro n
    simp [createAccountRecords, ih]

theorem not_missing_of_in_store (store : HistoryStore) (rows : List Row)
    (hpos : ∀ p ∈ store.accounts, p.2 ≠ 0)
    (hnd : (store.accounts.map Prod.fst).Nodup)
    (a : String) (ha : a ∈ store.accounts.map Prod.fst) :
    a ∉ missingAddrs store rows := by
  intro hmiss
  rw [missingAddrs, List.mem_filter] at hmiss
  obtain ⟨haddr, hzero⟩ := hmiss
  rw [decide_eq_true_eq] at hzero
  obtain ⟨p, hp, hpa⟩ := List.mem_map.1 ha
  have hpex : p ∈ store.accounts.filter fun q =>
      decide (q.1 ∈ collectAddrs rows) := by
    rw [List.mem_filter]
    exact ⟨hp, by rw [hpa]; simpa using haddr⟩
  have hsub : ((store.accounts.filter fun q =>
      decide (q.1 ∈ collectAddrs rows)).map Prod.fst).Sublist
      (store.accounts.map Prod.fst) :=
    (List.filter_sublist _).map _
  have hndf := hnd.sublist hsub
  have hfm : fetchedMap store rows =
      (store.accounts.filter fun q => decide (q.1 ∈ collectAddrs rows)).foldl
        (fun acc q => alSet acc q.1 q.2)
        ((collectAddrs rows).map fun x => (x, 0)) := rfl
  have hget := alGet_foldl_alSet_mem _ p hndf hpex
    ((collectAddrs rows).map fun x => (x, 0))
  rw [← hfm] at hget
  rw [mapGet] at hzero
  rw [hpa] at hget
  rw [hget] at hzero
  exact hpos p hp (by simpa using hzero)

theorem rowResolutions_update (m : List (String × Int)) (r : Row) :
    ∀ p ∈ rowResolutions (r.updateAccountIDs m), p.2 = mapGet m p.1 := by
  intro p hp
  cases r <;> simp [Row.updateAccountIDs, rowResolutions] at hp <;>
    first
    | (rcases hp with rfl | rfl <;> rfl)
    | (rw [hp])
    | cases hp

theorem rowResolutions_addr (r : Row) :
    ∀ p ∈ rowResolutions r, p.1 ∈ r.getAddresses := by
  intro p hp
  cases r <;> simp [rowResolutions, Row.getAddresses] at hp ⊢ <;>
    first
    | (rcases hp with rfl | rfl <;> simp)
    | (rw [hp])
    | cases hp

/-! ### Helper lemmas about Clear -/

theorem clearLoop_all_ok (env : String → Option String) (start stop : Int) :
    ∀ l : List (String × String), (∀ p ∈ l, env p.1 = none) →
      clearLoop env start stop l =
        (l.map fun p => ⟨p.1, p.2, start, stop⟩, none) := by
  intro l
  induction l with
  | nil => intro _; rfl
  | cons p rest ih =>
    intro h
    obtain ⟨tbl, col⟩ := p
    have hp : env tbl = none := h (tbl, col) (List.mem_cons_self _ _)
    simp [clearLoop, hp, ih fun q hq => h q (List.mem_cons_of_mem _ hq)]

theorem clearLoop_fail (env : String → Option String) (start stop : Int)
    (tbl col e : String) (he : env tbl = some e) :
    ∀ l1 l2 : List (String × String), (∀ p ∈ l1, env p.1 = none) →
      clearLoop env start stop (l1 ++ (tbl, col) :: l2) =
        ((l1 ++ [(tbl, col)]).map fun p => ⟨p.1, p.2, start, stop⟩, some e) := by
  intro l1
  induction l1 with
  | nil =>
    intro l2 _
    simp [clearLoop, he]
  | cons p rest ih =>
    intro l2 h
    obtain ⟨t1, c1⟩ := p
    have hp : env t1 = none := h (t1, c1) (List.mem_cons_self _ _)
    simp [clearLoop, hp, ih l2 fun q hq => h q (List.mem_cons_of_mem _ hq)]

/-- C8: Clear issues one range delete over the half-open interval
from start (inclusive) to end (exclusive) per destination table, each
keyed by that table's own identifying column, sequentially in the fixed
source order; if the delete for some table fails, Clear returns that error
immediately, so the deletes already issued for earlier tables stand while
no delete is issued for any later table. -/
theorem clear_range_deletes (ing : Ingestion) (env : String → Option String)
    (start stop : Int) (l1 l2 : List (String × String)) (tbl col e : String)
    (keys : List Int) :
    ((∀ p ∈ clearTables, env p.1 = none) →
      ing.Clear env start stop =
        (clearTables.map fun p => ⟨p.1, p.2, start, stop⟩, none)) ∧
    (clearTables = l1 ++ (tbl, col) :: l2 →
      (∀ p ∈ l1, env p.1 = none) → env tbl = some e →
      ing.Clear env start stop =
        ((l1 ++ [(tbl, col)]).map fun p => ⟨p.1, p.2, start, stop⟩, some e)) ∧
    (∀ k : Int, k ∈ applyDeleteRange start stop keys ↔
      k ∈ keys ∧ ¬(start ≤ k ∧ k < stop)) := by
  refine ⟨?_, ?_, ?_⟩
  · intro h
    exact clearLoop_all_ok env start stop clearTables h
  · intro hsplit h1 he
    rw [Ingestion.Clear, hsplit]
    exact clearLoop_fail env start stop tbl col e he l1 l2 h1
  · intro k
    simp only [applyDeleteRange, List.mem_filter, Bool.or_eq_true,
      decide_eq_true_eq]
    constructor
    · rintro ⟨h1, h2⟩
      exact ⟨h1, by omega⟩
    · rintro ⟨h1, h2⟩
      exact ⟨h1, by omega⟩

/-- C9: after every successful Start (and hence after every successful
Flush, which ends by calling Start), the builders map binds every one of
the seven table names, so Flush's "insert builder does not exist" error
branch is unreachable: the insert phase from that state is error-free for
every buffer. -/
theorem start_builders_complete :
    (∀ ing : Ingestion, ing.Start.1 = startState) ∧
    (∀ t : TableName, alGet startState.builders t = some (initBuilder t)) ∧
    (∀ rows : List Row,
      ∃ stmts, flushInserts startState.builders rows = .ok stmts) := by
  refine ⟨fun _ => rfl, fun t => alGet_initialBuilders t, ?_⟩
  intro rows
  obtain ⟨stmts, h1, _, _⟩ := flushInserts_spec rows
  exact ⟨stmts, h1⟩

/-- C7: Flush with an empty row buffer executes no insert statements yet
still commits the open transaction and immediately begins a new one; and
in general every successful Flush leaves the Ingestion object in exactly
the state Start produces (fresh transaction, the seven builders
reinitialized empty, empty row buffer). -/
theorem flush_commits_and_restarts (ing : Ingestion) (store : HistoryStore) :
    (ing.rowsToInsert = [] →
      ing.Flush store = .ok (startState, store, [.commitTx, .beginTx])) ∧
    (∀ res, ing.Flush store = .ok res → res.1 = ing.Start.1) := by
  constructor
  · intro h
    simp [Ingestion.Flush, h, updateAccountIDs, collectAddrs, collectAddrsAux,
      flushInserts, flushLoop, flushFinal]
  · intro res hres
    rw [Ingestion.Flush] at hres
    cases hflush : flushInserts ing.builders
        (updateAccountIDs store ing.rowsToInsert).2.1 with
    | error e =>
      rw [hflush] at hres
      cases hres
    | ok stmts =>
      rw [hflush] at hres
      cases hres
      rfl

/-- C3: for a trade between two assets with distinct resolved identifiers,
the asset with the lower identifier is designated base and the other
counter, each party's address and amount follow the side its asset landed
on, and base_is_seller records whether the seller's sold asset is the
base; swapping which party is seller and which is buyer for the same two
assets and amounts yields identical base/counter asset identifiers and
amounts (indeed identical base/counter addresses, each address following
its asset), with only the base_is_seller flag negated. -/
theorem trade_canonicalization (opid order : Int) (seller buyer : String)
    (sold bought amtS amtB offerId closedAt : Int) (hne : sold ≠ bought) :
    (tradeRowOf opid order seller buyer sold bought amtS amtB offerId closedAt).baseAssetID = min sold bought ∧
    (tradeRowOf opid order seller buyer sold bought amtS amtB offerId closedAt).counterAssetID = max sold bought ∧
    (sold < bought →
      (tradeRowOf opid order seller buyer sold bought amtS amtB offerId closedAt).baseAddress = seller ∧
      (tradeRowOf opid order seller buyer sold bought amtS amtB offerId closedAt).baseAmount = amtS ∧
      (tradeRowOf opid order seller buyer sold bought amtS amtB offerId closedAt).counterAddress = buyer ∧
      (tradeRowOf opid order seller buyer sold bought amtS amtB offerId closedAt).counterAmount = amtB) ∧
    (bought < sold →
      (tradeRowOf opid order seller buyer sold bought amtS amtB offerId closedAt).baseAddress = buyer ∧
      (tradeRowOf opid order seller buyer sold bought amtS amtB offerId closedAt).baseAmount = amtB ∧
      (tradeRowOf opid order seller buyer sold bought amtS amtB offerId closedAt).counterAddress = seller ∧
      (tradeRowOf opid order seller buyer sold bought amtS amtB offerId closedAt).counterAmount = amtS) ∧
    ((tradeRowOf opid order seller buyer sold bought amtS amtB offerId closedAt).baseIsSeller = true ↔
      (tradeRowOf opid order seller buyer sold bought amtS amtB offerId closedAt).baseAssetID = sold) ∧
    (tradeRowOf opid order buyer seller bought sold amtB amtS offerId closedAt).baseAssetID =
      (tradeRowOf opid order seller buyer sold bought amtS amtB offerId closedAt).baseAssetID ∧
    (tradeRowOf opid order buyer seller bought sold amtB amtS offerId closedAt).counterAssetID =
      (tradeRowOf opid order seller buyer sold bought amtS amtB offerId closedAt).counterAssetID ∧
    (tradeRowOf opid order buyer seller bought sold amtB amtS offerId closedAt).baseAmount =
      (tradeRowOf opid order seller buyer sold bought amtS amtB offerId closedAt).baseAmount ∧
    (tradeRowOf opid order buyer seller bought sold amtB amtS offerId closedAt).counterAmount =
      (tradeRowOf opid order seller buyer sold bought amtS amtB offerId closedAt).counterAmount ∧
    (tradeRowOf opid order buyer seller bought sold amtB amtS offerId closedAt).baseAddress =
      (tradeRowOf opid order seller buyer sold bought amtS amtB offerId closedAt).baseAddress ∧
    (tradeRowOf opid order buyer seller bought sold amtB amtS offerId closedAt).counterAddress =
      (tradeRowOf opid order seller buyer sold bought amtS amtB offerId closedAt).counterAddress ∧
    (tradeRowOf opid order buyer seller bought sold amtB amtS offerId closedAt).baseIsSeller =
      !(tradeRowOf opid order seller buyer sold bought amtS amtB offerId closedAt).baseIsSeller := by
  rcases lt_or_gt_of_ne hne with h | h
  · have h1 : ¬bought < sold := by omega
    have hmin : min sold bought = sold := min_eq_left h.le
    have hmax : max sold bought = bought := max_eq_right h.le
    simp [tradeRowOf, h, h1, hmin, hmax]
  · have h1 : ¬sold < bought := by omega
    have hmin : min sold bought = bought := min_eq_right h.le
    have hmax : max sold bought = sold := max_eq_left h.le
    simp [tradeRowOf, h, h1, hmin, hmax, hne.symm]

/-- C10: when the two resolved asset identifiers are equal, the Trade
emitter places the buyer's address and bought amount on the base side and
the seller's on the counter side, and base_is_seller is false; in general
the seller lands on the base side exactly when the sold asset's identifier
is strictly lower than the bought asset's. -/
theorem trade_equal_asset_ids (opid order : Int) (seller buyer : String)
    (sold bought amtS amtB offerId closedAt : Int) (heq : sold = bought) :
    (tradeRowOf opid order seller buyer sold bought amtS amtB offerId closedAt).baseAddress = buyer ∧
    (tradeRowOf opid order seller buyer sold bought amtS amtB offerId closedAt).baseAmount = amtB ∧
    (tradeRowOf opid order seller buyer sold bought amtS amtB offerId closedAt).baseAssetID = bought ∧
    (tradeRowOf opid order seller buyer sold bought amtS amtB offerId closedAt).counterAddress = seller ∧
    (tradeRowOf opid order seller buyer sold bought amtS amtB offerId closedAt).counterAmount = amtS ∧
    (tradeRowOf opid order seller buyer sold bought amtS amtB offerId closedAt).counterAssetID = sold ∧
    (tradeRowOf opid order seller buyer sold bought amtS amtB offerId closedAt).baseIsSeller = false ∧
    (∀ s' b' : Int, s' < b' →
      (tradeRowOf opid order seller buyer s' b' amtS amtB offerId closedAt).baseAddress = seller ∧
      (tradeRowOf opid order seller buyer s' b' amtS amtB offerId closedAt).baseAmount = amtS ∧
      (tradeRowOf opid order seller buyer s' b' amtS amtB offerId closedAt).baseIsSeller = true) ∧
    (∀ s' b' : Int, ¬s' < b' →
      (tradeRowOf opid order seller buyer s' b' amtS amtB offerId closedAt).baseAddress = buyer ∧
      (tradeRowOf opid order seller buyer s' b' amtS amtB offerId closedAt).baseAmount = amtB ∧
      (tradeRowOf opid order seller buyer s' b' amtS amtB offerId closedAt).baseIsSeller = false) := by
  have h1 : ¬sold < bought := by omega
  refine ⟨?_, ?_, ?_, ?_, ?_, ?_, ?_, ?_, ?_⟩
  case refine_8 =>
    intro s' b' hlt
    simp [tradeRowOf, hlt]
  case refine_9 =>
    intro s' b' hlt
    simp [tradeRowOf, hlt]
  all_goals simp [tradeRowOf, h1]

/-- C5: a call to Effect or Operation whose details payload fails
serialization returns the encoding error unwrapped and buffers nothing
(no Ingestion state results from the call, so the row buffer is exactly as
it was); when serialization succeeds, exactly one row is appended to the
buffer and the rest of the state is unchanged. -/
theorem emitter_encoding_errors (ing : Ingestion) (address source : String)
    (opid order typ id txid oorder otyp : Int) (details : Details) :
    (∀ e, jsonMarshal details = .error e →
      ing.Effect address opid order typ details = .error e ∧
      ing.Operation id txid oorder source otyp details = .error e) ∧
    (∀ enc, jsonMarshal details = .ok enc →
      ing.Effect address opid order typ details =
        .ok { ing with rowsToInsert := ing.rowsToInsert ++ [.effect { accountID := 0, operationID := opid, order := order, type := typ, details := enc, address := address }] } ∧
      ing.Operation id txid oorder source otyp details =
        .ok { ing with rowsToInsert := ing.rowsToInsert ++ [.operation { id := id, txID := txid, order := oorder, source := source, type := otyp, details := enc }] }) := by
  constructor
  · intro e he
    cases details with
    | ok s => simp [jsonMarshal] at he
    | bad e' =>
      simp [jsonMarshal] at he
      subst he
      exact ⟨rfl, rfl⟩
  · intro enc henc
    cases details with
    | bad e' => simp [jsonMarshal] at henc
    | ok s =>
      simp [jsonMarshal] at henc
      subst henc
      exact ⟨rfl, rfl⟩

/-- C1: whenever Flush's running parameter count for a table exceeds 65000
after appending a row's parameter tuple, that table's in-progress
statement is executed immediately, its count resets to zero and a fresh
empty builder is started for that table; consequently every statement the
insert phase executes carries at most 65535 bound parameters (at most
65018, in fact, since a row tuple has at most 18 parameters), and per
table the concatenated values across the executed statements are exactly
the buffered input for that table, in order, with no duplicates or
omissions. -/
theorem flush_chunking (rows : List Row) (s : LoopState) (r : Row) (b : Stmt) :
    (alGet s.builders r.getTableName = some b →
      65000 < cntGet s.counts r.getTableName + r.getParams.length →
      flushStep s r = .ok { builders := alSet (alSet s.builders r.getTableName { b with values := b.values ++ r.getParams }) r.getTableName (initBuilder r.getTableName), counts := alSet s.counts r.getTableName 0, execs := s.execs ++ [{ b with values := b.values ++ r.getParams }] }) ∧
    ∃ stmts, flushInserts initialBuilders rows = .ok stmts ∧
      (∀ st ∈ stmts, st.values.length ≤ 65535) ∧
      (∀ t, execValues t stmts = tableParams t rows) := by
  constructor
  · intro hb hcnt
    simp only [flushStep, hb]
    rw [if_pos hcnt]
  · obtain ⟨stmts, h1, h2, h3⟩ := flushInserts_spec rows
    exact ⟨stmts, h1, fun st hst => le_trans (h2 st hst) (by omega), h3⟩

/-- C2: when every table's total buffered parameter count stays at or
below the 65000 threshold, Flush's insert phase executes exactly one
statement per table that has at least one buffered row and none for empty
tables, and that statement carries every buffered parameter tuple for the
table exactly once, in emission order. -/
theorem flush_under_threshold (rows : List Row)
    (hyp : ∀ t, (tableParams t rows).length ≤ 65000) :
    ∃ stmts, flushInserts initialBuilders rows = .ok stmts ∧
      ∀ t, stmts.filter (fun st => st.table = t) =
        if tableParams t rows = [] then []
        else [{ table := t, columns := builderColumns t, values := tableParams t rows }] :=
  flushInserts_small rows hyp

/-- C4 is false as stated ("none touch the store"): this concrete Trade
call performs two destination-store round trips (the get-or-create asset
resolutions) and writes two new asset records into the store. -/
theorem trade_touches_store :
    runEmitter (.trade 1 1 "GBUYER" { sellerAddress := "GSELLER", offerId := 1, assetSold := "USD-bank", amountSold := 10, assetBought := "EUR-bank", amountBought := 20 } 0) startState { assets := [], nextID := 1 } 0 =
      .ok ({ startState with rowsToInsert := [.trade { operationID := 1, order := 1, ledgerCloseAt := 0, offerID := 1, baseAccountID := 0, baseAssetID := 1, baseAmount := 10, counterAccountID := 0, counterAssetID := 2, counterAmount := 20, baseIsSeller := true, baseAddress := "GSELLER", counterAddress := "GBUYER" }] }, { assets := [("USD-bank", 1), ("EUR-bank", 2)], nextID := 3 }, [.getCreateAsset "USD-bank", .getCreateAsset "EUR-bank"]) ∧
    [StoreOp.getCreateAsset "USD-bank", StoreOp.getCreateAsset "EUR-bank"] ≠ ([] : List StoreOp) ∧
    ({ assets := [("USD-bank", 1), ("EUR-bank", 2)], nextID := 3 } : AssetStore) ≠ { assets := [], nextID := 1 } := by
  refine ⟨rfl, by simp, by decide⟩

/-- C4 (amended): every emitter call only constructs Row values and
appends them to the in-memory buffer and executes no statement; the six
emitters other than Trade perform no destination-store round trip at all
and leave the store untouched, while a Trade call additionally performs
exactly the two get-or-create asset-identifier resolutions against the
destination store before buffering its row. -/
theorem emitters_only_buffer (c : EmitterCall) (ing : Ingestion)
    (st : AssetStore) (now : Int) :
    (c.isTrade = false →
      (∃ e, runEmitter c ing st now = .error e) ∨
      ∃ newRows, runEmitter c ing st now =
        .ok ({ ing with rowsToInsert := ing.rowsToInsert ++ newRows }, st, [])) ∧
    (∀ opid order buyer t lca, c = .trade opid order buyer t lca →
      ∃ row st', runEmitter c ing st now =
        .ok ({ ing with rowsToInsert := ing.rowsToInsert ++ [Row.trade row] }, st', [.getCreateAsset t.assetSold, .getCreateAsset t.assetBought])) := by
  constructor
  · intro hnt
    cases c with
    | effect address opid order typ details =>
      cases details with
      | bad e => exact Or.inl ⟨e, rfl⟩
      | ok s => exact Or.inr ⟨_, rfl⟩
    | operation id txid order source typ details =>
      cases details with
      | bad e => exact Or.inl ⟨e, rfl⟩
      | ok s => exact Or.inr ⟨_, rfl⟩
    | operationParticipants op aids => exact Or.inr ⟨_, rfl⟩
    | ledger id header txs ops => exact Or.inr ⟨_, rfl⟩
    | trade opid order buyer t lca => cases hnt
    | transaction id tx fee => exact Or.inr ⟨_, rfl⟩
    | transactionParticipants tx aids => exact Or.inr ⟨_, rfl⟩
  · intro opid order buyer t lca hc
    subst hc
    exact ⟨_, _, rfl⟩

/-- C6: within one UpdateAccountIDs run, a single address-to-identifier
map built from the distinct referenced addresses is pushed into every
buffered row — so any two resolved references to the same address across
all rows carry the same identifier — and an address that already has an
account record in the store is never inserted again: the store keeps its
old records and gains only records for genuinely new addresses, so no
duplicate account records arise. -/
theorem update_account_ids_consistent (store : HistoryStore) (rows : List Row)
    (hpos : ∀ p ∈ store.accounts, p.2 ≠ 0)
    (hnd : (store.accounts.map Prod.fst).Nodup) :
    (collectAddrs rows).Nodup ∧
    (collectAddrs rows ≠ [] →
      (updateAccountIDs store rows).2.1 =
        rows.map fun r => r.updateAccountIDs (finalMap store rows)) ∧
    (∀ r1 r2, r1 ∈ (updateAccountIDs store rows).2.1 →
      r2 ∈ (updateAccountIDs store rows).2.1 →
      ∀ a i1 i2, (a, i1) ∈ rowResolutions r1 → (a, i2) ∈ rowResolutions r2 →
        i1 = i2) ∧
    (∃ created, (updateAccountIDs store rows).1.accounts =
        store.accounts ++ created ∧
      ∀ p ∈ created, p.1 ∉ store.accounts.map Prod.fst) ∧
    ((updateAccountIDs store rows).1.accounts.map Prod.fst).Nodup := by
  by_cases haddr : collectAddrs rows = []
  · have hupd : updateAccountIDs store rows = (store, rows, []) := by
      simp [updateAccountIDs, haddr]
    refine ⟨collectAddrs_nodup rows, fun h => absurd haddr h, ?_, ?_, ?_⟩
    · intro r1 r2 hr1 hr2 a i1 i2 hp1 hp2
      rw [hupd] at hr1
      have ha1 : a ∈ r1.getAddresses := rowResolutions_addr r1 (a, i1) hp1
      rw [getAddresses_nil_of_collect_nil rows haddr r1 hr1] at ha1
      cases ha1
    · exact ⟨[], by rw [hupd]; simp, by intro p hp; cases hp⟩
    · rw [hupd]
      exact hnd
  · have hmain : (updateAccountIDs store rows).2.1 =
        rows.map fun r => r.updateAccountIDs (finalMap store rows) := by
      simp [updateAccountIDs, haddr]
    have hmiss_not_store : ∀ a ∈ missingAddrs store rows,
        a ∉ store.accounts.map Prod.fst := by
      intro a ha hmem
      exact not_missing_of_in_store store rows hpos hnd a hmem ha
    refine ⟨collectAddrs_nodup rows, fun _ => hmain, ?_, ?_, ?_⟩
    · intro r1 r2 hr1 hr2 a i1 i2 hp1 hp2
      rw [hmain] at hr1 hr2
      obtain ⟨o1, _, rfl⟩ := List.mem_map.1 hr1
      obtain ⟨o2, _, rfl⟩ := List.mem_map.1 hr2
      have e1 := rowResolutions_update (finalMap store rows) o1 (a, i1) hp1
      have e2 := rowResolutions_update (finalMap store rows) o2 (a, i2) hp2
      exact e1.trans e2.symm
    · by_cases hmiss : missingAddrs store rows = []
      · refine ⟨[], ?_, by intro p hp; cases hp⟩
        simp [updateAccountIDs, haddr, hmiss]
      · refine ⟨createAccountRecords store.nextID (missingAddrs store rows), ?_, ?_⟩
        · simp [updateAccountIDs, haddr, hmiss, createAccounts]
        · intro p hp
          have hkey : p.1 ∈ missingAddrs store rows := by
            rw [← createAccountRecords_keys (missingAddrs store rows) store.nextID]
            exact List.mem_map_of_mem Prod.fst hp
          exact hmiss_not_store p.1 hkey
    · by_cases hmiss : missingAddrs store rows = []
      · have : (updateAccountIDs store rows).1 = store := by
          simp [updateAccountIDs, haddr, hmiss]
        rw [this]
        exact hnd
      · have hacc : (updateAccountIDs store rows).1.accounts =
            store.accounts ++ createAccountRecords store.nextID (missingAddrs store rows) := by
          simp [updateAccountIDs, haddr, hmiss, createAccounts]
        rw [hacc, List.map_append, createAccountRecords_keys]
        refine List.Nodup.append hnd ?_ ?_
        · exact (collectAddrs_nodup rows).filter _
        · intro a hs hm
          exact hmiss_not_store a hm hs

/-- Witness for flush-chunking: a state whose operations count sits at the
threshold chunks on the next operation row, and a one-row buffer flushes
within bounds. -/
theorem flush_chunking_witness :
    flushStep { builders := initialBuilders, counts := [(TableName.operations, 65000)], execs := [] } wRow =
      .ok { builders := alSet (alSet initialBuilders TableName.operations { initBuilder TableName.operations with values := wRow.getParams }) TableName.operations (initBuilder TableName.operations), counts := alSet [(TableName.operations, 65000)] TableName.operations 0, execs := [{ initBuilder TableName.operations with values := wRow.getParams }] } ∧
    ∃ stmts, flushInserts initialBuilders [wRow] = .ok stmts ∧
      (∀ st ∈ stmts, st.values.length ≤ 65535) ∧
      (∀ t, execValues t stmts = tableParams t [wRow]) := by
  constructor
  · exact (flush_chunking [wRow] { builders := initialBuilders, counts := [(TableName.operations, 65000)], execs := [] } wRow (initBuilder TableName.operations)).1 (alGet_initialBuilders TableName.operations) (by decide)
  · exact (flush_chunking [wRow] { builders := initialBuilders, counts := [(TableName.operations, 65000)], execs := [] } wRow (initBuilder TableName.operations)).2

/-- Witness for flush-under-threshold on a one-row buffer. -/
theorem flush_under_threshold_witness :
    ∃ stmts, flushInserts initialBuilders [wRow] = .ok stmts ∧
      ∀ t, stmts.filter (fun st => st.table = t) =
        if tableParams t [wRow] = [] then []
        else [{ table := t, columns := builderColumns t, values := tableParams t [wRow] }] :=
  flush_under_threshold [wRow] (by decide)

/-- Witness for trade canonicalization at the spec's example identifiers
3 and 5: the seller sells the asset with identifier 5 and buys the one
with identifier 3. -/
theorem trade_canonicalization_witness :
    (tradeRowOf 1 2 "GSELLER" "GBUYER" 5 3 10 20 7 0).baseAssetID = min 5 3 ∧
    (tradeRowOf 1 2 "GSELLER" "GBUYER" 5 3 10 20 7 0).counterAssetID = max 5 3 ∧
    ((5:Int) < 3 →
      (tradeRowOf 1 2 "GSELLER" "GBUYER" 5 3 10 20 7 0).baseAddress = "GSELLER" ∧
      (tradeRowOf 1 2 "GSELLER" "GBUYER" 5 3 10 20 7 0).baseAmount = 10 ∧
      (tradeRowOf 1 2 "GSELLER" "GBUYER" 5 3 10 20 7 0).counterAddress = "GBUYER" ∧
      (tradeRowOf 1 2 "GSELLER" "GBUYER" 5 3 10 20 7 0).counterAmount = 20) ∧
    ((3:Int) < 5 →
      (tradeRowOf 1 2 "GSELLER" "GBUYER" 5 3 10 20 7 0).baseAddress = "GBUYER" ∧
      (tradeRowOf 1 2 "GSELLER" "GBUYER" 5 3 10 20 7 0).baseAmount = 20 ∧
      (tradeRowOf 1 2 "GSELLER" "GBUYER" 5 3 10 20 7 0).counterAddress = "GSELLER" ∧
      (tradeRowOf 1 2 "GSELLER" "GBUYER" 5 3 10 20 7 0).counterAmount = 10) ∧
    ((tradeRowOf 1 2 "GSELLER" "GBUYER" 5 3 10 20 7 0).baseIsSeller = true ↔
      (tradeRowOf 1 2 "GSELLER" "GBUYER" 5 3 10 20 7 0).baseAssetID = 5) ∧
    (tradeRowOf 1 2 "GBUYER" "GSELLER" 3 5 20 10 7 0).baseAssetID =
      (tradeRowOf 1 2 "GSELLER" "GBUYER" 5 3 10 20 7 0).baseAssetID ∧
    (tradeRowOf 1 2 "GBUYER" "GSELLER" 3 5 20 10 7 0).counterAssetID =
      (tradeRowOf 1 2 "GSELLER" "GBUYER" 5 3 10 20 7 0).counterAssetID ∧
    (tradeRowOf 1 2 "GBUYER" "GSELLER" 3 5 20 10 7 0).baseAmount =
      (tradeRowOf 1 2 "GSELLER" "GBUYER" 5 3 10 20 7 0).baseAmount ∧
    (tradeRowOf 1 2 "GBUYER" "GSELLER" 3 5 20 10 7 0).counterAmount =
      (tradeRowOf 1 2 "GSELLER" "GBUYER" 5 3 10 20 7 0).counterAmount ∧
    (tradeRowOf 1 2 "GBUYER" "GSELLER" 3 5 20 10 7 0).baseAddress =
      (tradeRowOf 1 2 "GSELLER" "GBUYER" 5 3 10 20 7 0).baseAddress ∧
    (tradeRowOf 1 2 "GBUYER" "GSELLER" 3 5 20 10 7 0).counterAddress =
      (tradeRowOf 1 2 "GSELLER" "GBUYER" 5 3 10 20 7 0).counterAddress ∧
    (tradeRowOf 1 2 "GBUYER" "GSELLER" 3 5 20 10 7 0).baseIsSeller =
      !(tradeRowOf 1 2 "GSELLER" "GBUYER" 5 3 10 20 7 0).baseIsSeller :=
  trade_canonicalization 1 2 "GSELLER" "GBUYER" 5 3 10 20 7 0 (by decide)

/-- Witness for the Trade emitter's behaviour on equal asset
identifiers. -/
theorem trade_equal_asset_ids_witness :
    (tradeRowOf 1 2 "GSELLER" "GBUYER" 4 4 10 20 7 0).baseAddress = "GBUYER" ∧
    (tradeRowOf 1 2 "GSELLER" "GBUYER" 4 4 10 20 7 0).baseAmount = 20 ∧
    (tradeRowOf 1 2 "GSELLER" "GBUYER" 4 4 10 20 7 0).baseAssetID = 4 ∧
    (tradeRowOf 1 2 "GSELLER" "GBUYER" 4 4 10 20 7 0).counterAddress = "GSELLER" ∧
    (tradeRowOf 1 2 "GSELLER" "GBUYER" 4 4 10 20 7 0).counterAmount = 10 ∧
    (tradeRowOf 1 2 "GSELLER" "GBUYER" 4 4 10 20 7 0).counterAssetID = 4 ∧
    (tradeRowOf 1 2 "GSELLER" "GBUYER" 4 4 10 20 7 0).baseIsSeller = false ∧
    (∀ s' b' : Int, s' < b' →
      (tradeRowOf 1 2 "GSELLER" "GBUYER" s' b' 10 20 7 0).baseAddress = "GSELLER" ∧
      (tradeRowOf 1 2 "GSELLER" "GBUYER" s' b' 10 20 7 0).baseAmount = 10 ∧
      (tradeRowOf 1 2 "GSELLER" "GBUYER" s' b' 10 20 7 0).baseIsSeller = true) ∧
    (∀ s' b' : Int, ¬s' < b' →
      (tradeRowOf 1 2 "GSELLER" "GBUYER" s' b' 10 20 7 0).baseAddress = "GBUYER" ∧
      (tradeRowOf 1 2 "GSELLER" "GBUYER" s' b' 10 20 7 0).baseAmount = 20 ∧
      (tradeRowOf 1 2 "GSELLER" "GBUYER" s' b' 10 20 7 0).baseIsSeller = false) :=
  trade_equal_asset_ids 1 2 "GSELLER" "GBUYER" 4 4 10 20 7 0 rfl

/-- Witness for the Effect/Operation encoding behaviour: a failing
payload surfaces its error and a succeeding payload buffers one row. -/
theorem emitter_encoding_errors_witness :
    startState.Effect "GA" 1 2 3 (Details.bad "boom") = .error "boom" ∧
    startState.Operation 1 2 3 "GS" 4 (Details.ok "enc") =
      .ok { startState with rowsToInsert := [.operation { id := 1, txID := 2, order := 3, source := "GS", type := 4, details := "enc" }] } := by
  constructor
  · exact ((emitter_encoding_errors startState "GA" "GS" 1 2 3 1 2 3 4 (Details.bad "boom")).1 "boom" rfl).1
  · exact ((emitter_encoding_errors startState "GA" "GS" 1 2 3 1 2 3 4 (Details.ok "enc")).2 "enc" rfl).2

/-- Witness for the buffering-only behaviour of the emitters: a Ledger
call appends without touching the store, and a Trade call performs exactly
its two asset resolutions. -/
theorem emitters_only_buffer_witness :
    ((∃ e, runEmitter (.ledger 1 hdrW 2 3) startState astW 0 = .error e) ∨
      ∃ newRows, runEmitter (.ledger 1 hdrW 2 3) startState astW 0 =
        .ok ({ startState with rowsToInsert := startState.rowsToInsert ++ newRows }, astW, [])) ∧
    (∃ row st', runEmitter (.trade 1 1 "GB" coaW 0) startState astW 0 =
      .ok ({ startState with rowsToInsert := startState.rowsToInsert ++ [Row.trade row] }, st', [.getCreateAsset coaW.assetSold, .getCreateAsset coaW.assetBought])) := by
  constructor
  · exact (emitters_only_buffer (.ledger 1 hdrW 2 3) startState astW 0).1 rfl
  · exact (emitters_only_buffer (.trade 1 1 "GB" coaW 0) startState astW 0).2 1 1 "GB" coaW 0 rfl

/-- Witness for account-identifier resolution on a store with one existing
record and a buffer referencing it plus one new address. -/
theorem update_account_ids_consistent_witness :
    (collectAddrs rowsW).Nodup ∧
    (collectAddrs rowsW ≠ [] →
      (updateAccountIDs storeW rowsW).2.1 =
        rowsW.map fun r => r.updateAccountIDs (finalMap storeW rowsW)) ∧
    (∀ r1 r2, r1 ∈ (updateAccountIDs storeW rowsW).2.1 →
      r2 ∈ (updateAccountIDs storeW rowsW).2.1 →
      ∀ a i1 i2, (a, i1) ∈ rowResolutions r1 → (a, i2) ∈ rowResolutions r2 →
        i1 = i2) ∧
    (∃ created, (updateAccountIDs storeW rowsW).1.accounts =
        storeW.accounts ++ created ∧
      ∀ p ∈ created, p.1 ∉ storeW.accounts.map Prod.fst) ∧
    ((updateAccountIDs storeW rowsW).1.accounts.map Prod.fst).Nodup :=
  update_account_ids_consistent storeW rowsW (by decide) (by decide)

/-- Witness for Clear: a run with no failures issues all eight deletes in
order, a run failing on the operations table stops there, and the delete
interval is half-open. -/
theorem clear_range_deletes_witness :
    startState.Clear (fun _ => none) 3 9 =
      (clearTables.map fun p => ⟨p.1, p.2, 3, 9⟩, none) ∧
    startState.Clear envW 3 9 =
      (([("history_effects", "history_operation_id"), ("history_operation_participants", "history_operation_id")] ++ [("history_operations", "id")]).map fun p => (⟨p.1, p.2, 3, 9⟩ : DeleteOp), some "boom") ∧
    ((7:Int) ∈ applyDeleteRange 3 9 [2, 7, 9] ↔
      (7:Int) ∈ ([2, 7, 9] : List Int) ∧ ¬((3:Int) ≤ 7 ∧ (7:Int) < 9)) := by
  refine ⟨?_, ?_, ?_⟩
  · exact (clear_range_deletes startState (fun _ => none) 3 9 [] [] "" "" "" []).1 fun p _ => rfl
  · exact (clear_range_deletes startState envW 3 9 [("history_effects", "history_operation_id"), ("history_operation_participants", "history_operation_id")] [("history_transaction_participants", "history_transaction_id"), ("history_transactions", "id"), ("history_ledgers", "id"), ("history_trades", "history_operation_id"), ("asset_stats", "id")] "history_operations" "id" "boom" []).2.1 rfl (by decide) (by decide)
  · exact (clear_range_deletes startState envW 3 9 [] [] "" "" "" [2, 7, 9]).2.2 7

/-- Witness for Flush on an empty buffer: no statements, one commit, one
begin, and the Start state. -/
theorem flush_commits_and_restarts_witness :
    startState.Flush { accounts := [], nextID := 1 } =
      .ok (startState, { accounts := [], nextID := 1 }, [.commitTx, .beginTx]) :=
  (flush_commits_and_restarts startState { accounts := [], nextID := 1 }).1 rfl

end Ingest
